import Mathlib

/-!
Verification of the tongue / loop-capture core of the anteater game
(`game.py`).  The Python code is shallowly embedded: the `Anteater`
object becomes the structure `AState`, `Anteater.update` becomes
`updateA`, `Anteater.handle_input` becomes `handleInput`,
`Anteater.get_loop_polygon_pixels` becomes `get_loop_polygon_pixels`
and the module-level `point_in_polygon` keeps its name.  Machine
integers are embedded as `Int`/`Nat` (Python ints are unbounded, so no
wrap-around is modelled), Python floats appearing in
`point_in_polygon` and in the centroid fallback are embedded as exact
rationals `ℚ`, and Python sets are embedded as `Finset` (with a fixed
canonical enumeration where the code iterates over a set, since
Python's set iteration order is unspecified; all theorems below are
independent of that choice).
-/

namespace AnteaterGame

/-- Screen width in pixels (`WIDTH = 800` in game.py). -/
def WIDTH : ℤ := 800

/-- Screen height in pixels (`HEIGHT = 600` in game.py). -/
def HEIGHT : ℤ := 600

/-- A grid cell, addressed by integer (column, row) as in the Python
tuples `(x, y)`. -/
abbrev Cell := ℤ × ℤ

instance : BEq Cell := instBEqOfDecidableEq

instance : LawfulBEq Cell where
  eq_of_beq h := of_decide_eq_true h
  rfl := by simp [BEq.beq]

/-- The state of the `Anteater` object: exactly the fields of
`Anteater.__init__` that take part in the tongue mechanic.  The
tongue deque is a head-first list; `loop_cells` (a Python set) is a
`Finset`. -/
structure AState where
  grid_size : ℤ
  tongue : List Cell
  direction : Cell
  next_direction : Cell
  extending : Bool
  retracting : Bool
  move_cooldown : ℕ
  move_timer : ℕ
  max_segments : ℕ
  min_loop_area : ℕ
  loop_active : Bool
  loop_cells : Finset Cell
  loop_path : List Cell
  capture_timer : ℕ
  capture_delay_frames : ℕ
  deriving DecidableEq

/-- `Anteater.__init__(grid_size)`: the anteater rect is
`Rect(WIDTH // 2 - 25, 50, 50, 50)`, so `centerx = 400` and
`bottom = 100`; the tongue is seeded with one cell below the snout. -/
def initA (g : ℤ) : AState where
  grid_size := g
  tongue := [(400 / g, 100 / g)]
  direction := (0, 1)
  next_direction := (0, 1)
  extending := false
  retracting := false
  move_cooldown := 5
  move_timer := 0
  max_segments := 40
  min_loop_area := 2
  loop_active := false
  loop_cells := ∅
  loop_path := []
  capture_timer := 0
  capture_delay_frames := 60

/-- The pressed state of the four arrow keys read by
`Anteater.handle_input`. -/
structure Keys where
  left : Bool
  right : Bool
  up : Bool
  down : Bool
  deriving DecidableEq

/-- `Anteater.handle_input(keys)`: an `if/elif` chain that buffers a
turn into `next_direction`, each branch guarded against the exact
reverse of the current `direction`. -/
def handleInput (keys : Keys) (s : AState) : AState :=
  if keys.left then
    (if s.direction ≠ ((1 : ℤ), (0 : ℤ)) then { s with next_direction := (-1, 0) } else s)
  else if keys.right then
    (if s.direction ≠ ((-1 : ℤ), (0 : ℤ)) then { s with next_direction := (1, 0) } else s)
  else if keys.up then
    (if s.direction ≠ ((0 : ℤ), (1 : ℤ)) then { s with next_direction := (0, -1) } else s)
  else if keys.down then
    (if s.direction ≠ ((0 : ℤ), (-1 : ℤ)) then { s with next_direction := (0, 1) } else s)
  else s

/-- The second half of `Anteater.update` (the `if self.retracting:`
block): pop the head cell once the cooldown expires, or finish
retraction and reset the direction to the default `(0, 1)` when a
single cell remains. -/
def retractPhase (s : AState) : AState :=
  if s.retracting then
    (if s.move_timer + 1 ≥ s.move_cooldown then
      (if s.tongue.length > 1 then
        { s with move_timer := 0, tongue := s.tongue.tail }
      else
        { s with move_timer := 0, retracting := false,
                 direction := (0, 1), next_direction := (0, 1) })
    else { s with move_timer := s.move_timer + 1 })
  else s

/-- The candidate new head `(head_x + dx, head_y + dy)` computed by
`Anteater.update` after applying the buffered direction; `tongue[0]`
is embedded as `headI` (the tongue is never empty in the game). -/
def nhOf (s : AState) : Cell :=
  ((s.tongue.headI).1 + s.next_direction.1,
   (s.tongue.headI).2 + s.next_direction.2)

/-- `Anteater.update`.  The extending block runs when
`self.extending and not self.loop_active`; on an out-of-bounds new
head it returns early (skipping the retract block), otherwise control
falls through to the retract block, here `retractPhase`. -/
def updateA (s : AState) : AState :=
  if s.extending = true ∧ s.loop_active = false then
    (if s.move_timer + 1 ≥ s.move_cooldown then
      (if (nhOf s).1 < 0 ∨ (nhOf s).1 > WIDTH / s.grid_size - 1 ∨
          (nhOf s).2 < 0 ∨ (nhOf s).2 > HEIGHT / s.grid_size - 1 then
        { s with move_timer := 0, direction := s.next_direction,
                 extending := false, retracting := true }
      else if nhOf s ∈ s.tongue then
        retractPhase
          { s with move_timer := 0, direction := s.next_direction,
                   loop_path := s.tongue.take (s.tongue.indexOf (nhOf s) + 1),
                   loop_cells :=
                     (s.tongue.take (s.tongue.indexOf (nhOf s) + 1)).toFinset,
                   loop_active := true,
                   capture_timer := s.capture_delay_frames,
                   extending := false, retracting := true }
      else if s.tongue.length < s.max_segments then
        retractPhase { s with move_timer := 0, direction := s.next_direction,
                              tongue := nhOf s :: s.tongue }
      else
        retractPhase { s with move_timer := 0, direction := s.next_direction,
                              extending := false, retracting := true })
    else retractPhase { s with move_timer := s.move_timer + 1 })
  else retractPhase s

/-- A pixel-coordinate corner point used by the boundary tracer. -/
abbrev Pt := ℤ × ℤ

/-- The boundary edges one cell contributes in
`Anteater.get_loop_polygon_pixels`: neighbors are examined in the
order up, right, down, left; for each neighbor absent from `cells`
the directed corner segment `(corners[i], corners[(i+1) % 4])` is
emitted. -/
def edgesOfCell (g : ℤ) (cells : List Cell) (c : Cell) : List (Pt × Pt) :=
  let x0 := c.1 * g
  let y0 := c.2 * g
  let x1 := x0 + g
  let y1 := y0 + g
  (if (c.1, c.2 - 1) ∈ cells then [] else [((x0, y0), (x1, y0))]) ++
  (if (c.1 + 1, c.2) ∈ cells then [] else [((x1, y0), (x1, y1))]) ++
  (if (c.1, c.2 + 1) ∈ cells then [] else [((x1, y1), (x0, y1))]) ++
  (if (c.1 - 1, c.2) ∈ cells then [] else [((x0, y1), (x0, y0))])

/-- All boundary edges of a (duplicate-free) cell list.  The Python
code collects them into a set; since each directed segment can only be
emitted by the single cell it borders on the corresponding side, the
concatenation already has no duplicates and the set is embedded as
this list. -/
def boundaryEdges (g : ℤ) (cells : List Cell) : List (Pt × Pt) :=
  cells.flatMap (edgesOfCell g cells)

/-- The adjacency lists `adj` built from the edge set: all successors
of a corner point (`adj.setdefault(a, []).append(b)`). -/
def adjOf (edges : List (Pt × Pt)) (p : Pt) : List Pt :=
  (edges.filter (fun e => e.1 = p)).map (fun e => e.2)

/-- Strict comparison on the key `(p[1], p[0])` used by
`min(adj.keys(), key=lambda p: (p[1], p[0]))`. -/
def cornerKeyLt (p q : Pt) : Prop :=
  p.2 < q.2 ∨ (p.2 = q.2 ∧ p.1 < q.1)

instance : DecidableRel cornerKeyLt := fun p q => by
  unfold cornerKeyLt; infer_instance

/-- The corner with the smallest `(y, x)` key among a list of corner
points (Python's `min` with that key; total on the nonempty lists the
code applies it to). -/
def minCorner (ps : List Pt) : Pt :=
  ps.foldl (fun best p => if cornerKeyLt p best then p else best) ps.headI

/-- One step of the boundary walk: prefer the first successor
different from the previously visited corner, else fall back to the
first successor (`nexts[0]`); `none` when there are no successors. -/
def nextChoice (nexts : List Pt) (prev : Option Pt) : Option Pt :=
  match nexts with
  | [] => none
  | _ => match nexts.find? (fun c => decide (some c ≠ prev)) with
         | some c => some c
         | none => nexts.head?

/-- The `while steps < max_steps` boundary walk of
`get_loop_polygon_pixels`, as a fuel recursion producing the corners
appended after the start corner; it stops on fuel exhaustion, on a
corner without successors, or on returning to `start`. -/
def walkAux (adjf : Pt → List Pt) (start : Pt) : ℕ → Pt → Option Pt → List Pt
  | 0, _, _ => []
  | fuel + 1, cur, prev =>
    match nextChoice (adjf cur) prev with
    | none => []
    | some nxt =>
      if nxt = start then []
      else nxt :: walkAux adjf start fuel nxt (some cur)

/-- Total order on cells used to enumerate a `Finset Cell` where the
Python code iterates over a set (iteration order there is
unspecified; theorems below do not depend on this choice). -/
def cellLe (a b : Cell) : Prop :=
  a.1 < b.1 ∨ (a.1 = b.1 ∧ a.2 ≤ b.2)

instance : DecidableRel cellLe := fun a b => by
  unfold cellLe; infer_instance

instance : IsTrans Cell cellLe where
  trans a b c hab hbc := by
    rcases hab with h | ⟨h1, h2⟩ <;> rcases hbc with h' | ⟨h1', h2'⟩ <;>
      [left; left; left; right] <;> omega

instance : IsAntisymm Cell cellLe where
  antisymm a b hab hba := by
    rcases hab with h | ⟨h1, h2⟩ <;> rcases hba with h' | ⟨h1', h2'⟩ <;>
      [omega; omega; omega; exact Prod.ext h1 (le_antisymm h2 h2')]

instance : IsTotal Cell cellLe where
  total a b := by
    unfold cellLe
    rcases lt_trichotomy a.1 b.1 with h | h | h
    · exact Or.inl (Or.inl h)
    · rcases le_total a.2 b.2 with h' | h'
      · exact Or.inl (Or.inr ⟨h, h'⟩)
      · exact Or.inr (Or.inr ⟨h.symm, h'⟩)
    · exact Or.inr (Or.inl h)

/-- The center pixel of a cell: `(gx * G + G // 2, gy * G + G // 2)`
(for the positive cell sizes the game uses, Python floor division
agrees with `Int` division). -/
def centerOf (g : ℤ) (c : Cell) : Pt :=
  (c.1 * g + g / 2, c.2 * g + g / 2)

/-- Angle class of a vector, ordered as the `math.atan2(dy, dx)`
value is: `dy < 0` gives angles in `(-π, 0)`, `dy = 0 ∧ 0 ≤ dx` gives
`0` (including `atan2(0, 0) = 0`), `dy > 0` gives `(0, π)`, and
`dy = 0 ∧ dx < 0` gives `π`. -/
def angClass (u : ℤ × ℤ) : ℕ :=
  if u.2 < 0 then 0
  else if u.2 = 0 then (if 0 ≤ u.1 then 1 else 3) else 2

/-- Within the open half-planes (`dy ≠ 0`), `atan2(dy, dx)` is
strictly increasing in `-dx/dy` (the negated cotangent), so this
rational is an exact order-embedding of the `atan2` key on each angle
class. -/
def angRat (u : ℤ × ℤ) : ℚ :=
  if u.2 = 0 then 0 else -(u.1 : ℚ) / (u.2 : ℚ)

/-- Exact embedding of the comparison
`atan2(dy₁, dx₁) ≤ atan2(dy₂, dx₂)` on integer vectors: lexicographic
on the angle class and then the negated-cotangent rational. -/
def angleLe (u v : ℤ × ℤ) : Bool :=
  decide (angClass u < angClass v ∨ (angClass u = angClass v ∧ angRat u ≤ angRat v))

/-- The center points `pts` built by the fallback branch of
`get_loop_polygon_pixels`, one per cell of the set (the Python set is
enumerated in the fixed `cellLe` order; the final sorted output does
not depend on this choice except between centers of exactly equal
angle). -/
def fallbackPts (g : ℤ) (loop_cells : Finset Cell) : List Pt :=
  (loop_cells.sort cellLe).map (centerOf g)

/-- The integer vector `n·p - (Σx, Σy)`: a positive (`n`-fold)
scaling of `p - (cx, cy)` for the float centroid
`(cx, cy) = (Σx/n, Σy/n)` the Python code computes, preserving the
`atan2` ordering exactly. -/
def fallbackVec (g : ℤ) (loop_cells : Finset Cell) (p : Pt) : ℤ × ℤ :=
  (((fallbackPts g loop_cells).length : ℤ) * p.1 -
     ((fallbackPts g loop_cells).map (fun r => r.1)).sum,
   ((fallbackPts g loop_cells).length : ℤ) * p.2 -
     ((fallbackPts g loop_cells).map (fun r => r.2)).sum)

/-- The sort key comparison
`atan2(p[1] - cy, p[0] - cx) ≤ atan2(q[1] - cy, q[0] - cx)` of the
fallback branch, embedded exactly through `angleLe`. -/
def fallbackLe (g : ℤ) (loop_cells : Finset Cell) (p q : Pt) : Bool :=
  angleLe (fallbackVec g loop_cells p) (fallbackVec g loop_cells q)

/-- The fallback branch of `get_loop_polygon_pixels`: cell centers
sorted by ascending `atan2` angle around the centroid of the centers;
the stable Python `list.sort` is `List.mergeSort`, which is
stable. -/
def fallbackPoly (g : ℤ) (loop_cells : Finset Cell) : List Pt :=
  if fallbackPts g loop_cells = [] then []
  else (fallbackPts g loop_cells).mergeSort (fallbackLe g loop_cells)

/-- `Anteater.get_loop_polygon_pixels`, as a function of the fields
it reads: `loop_cells` (only its emptiness and, in the fallback, its
elements matter) and `loop_path` (the primary tracer works on
`set(self.loop_path)`, embedded as `loop_path.dedup`). -/
def get_loop_polygon_pixels (g : ℤ) (min_loop_area : ℕ)
    (loop_path : List Cell) (loop_cells : Finset Cell) : List Pt :=
  if loop_cells = ∅ then []
  else if loop_path ≠ [] ∧ min_loop_area ≤ loop_path.length then
    let cells := loop_path.dedup
    let edges := boundaryEdges g cells
    if edges = [] then []
    else
      let start := minCorner (edges.map (fun e => e.1))
      start :: walkAux (adjOf edges) start (3 * edges.length) start none
  else fallbackPoly g loop_cells

/-- External driver events: arrow-key input routed to `handle_input`,
one `Anteater.update` tick, and the `K_SPACE` keydown/keyup handlers
of the main loop (`extending = True, retracting = False` resp.
`extending = False, retracting = True`). -/
inductive Event where
  | key (k : Keys)
  | tick
  | startExtend
  | stopExtend
  deriving DecidableEq

/-- Apply one driver event to the anteater state. -/
def stepEvent (s : AState) (e : Event) : AState :=
  match e with
  | Event.key k => handleInput k s
  | Event.tick => updateA s
  | Event.startExtend => { s with extending := true, retracting := false }
  | Event.stopExtend => { s with extending := false, retracting := true }

/-- Run a sequence of driver events from the freshly constructed
anteater. -/
def runEvents (g : ℤ) (evs : List Event) : AState :=
  evs.foldl stepEvent (initA g)

/-- The exact 180-degree opposite of a direction vector. -/
def dirOpp (d : Cell) : Cell := (-d.1, -d.2)

/-- The four unit direction vectors the game ever assigns. -/
def unitDirs : List Cell := [(1, 0), (-1, 0), (0, 1), (0, -1)]

/-- The turn requested by a pressed-keys state, following the
`if/elif` priority of `handle_input` (left, right, up, down). -/
def requestedDir (k : Keys) : Option Cell :=
  if k.left then some (-1, 0)
  else if k.right then some (1, 0)
  else if k.up then some (0, -1)
  else if k.down then some (0, 1)
  else none

/-- State invariant behind the no-reversal property: both direction
fields are unit vectors, the buffered direction is never the exact
opposite of the applied one, and the tongue is never empty. -/
def DirInv (s : AState) : Prop :=
  s.direction ∈ unitDirs ∧ s.next_direction ∈ unitDirs ∧
  s.next_direction ≠ dirOpp s.direction ∧ s.tongue ≠ []

/-- The module-level `point_in_polygon(x, y, polygon)` ray-casting
test; Python floats are embedded as exact rationals, including the
`1e-9` stabilizing epsilon in the denominator. -/
def epsQ : ℚ := 1 / 1000000000

/-- Whether one polygon edge `(x1, y1) -> (x2, y2)` toggles the
`inside` flag for the query point `(px, py)`:
`((y1 > py) != (y2 > py)) and (px < (x2 - x1) * (py - y1) / (y2 - y1 + 1e-9) + x1)`. -/
def crossesB (px py : ℚ) (p1 p2 : ℚ × ℚ) : Bool :=
  (decide (p1.2 > py) != decide (p2.2 > py)) &&
  decide (px < (p2.1 - p1.1) * (py - p1.2) / (p2.2 - p1.2 + epsQ) + p1.1)

/-- `point_in_polygon(x, y, polygon)`: returns `False` for fewer than
3 points, otherwise toggles `inside` once per crossing edge
`polygon[i] -> polygon[(i+1) % n]`. -/
def point_in_polygon (px py : ℚ) (polygon : List (ℚ × ℚ)) : Bool :=
  let n := polygon.length
  if n < 3 then false
  else (List.range n).foldl (fun inside i =>
    if crossesB px py (polygon.getD i (0, 0)) (polygon.getD ((i + 1) % n) (0, 0))
    then !inside else inside) false

/-- The moves of spec scenario A, grid 40x30 of cell size 20 starting
at cell (20, 5): ten steps down, five left, ten up, then four steps
right (the fifth right step is the revisiting one fed to
`updateA`). -/
def movesA : List Cell :=
  List.replicate 10 (0, 1) ++ List.replicate 5 (-1, 0) ++
  List.replicate 10 (0, -1) ++ List.replicate 4 (1, 0)

/-- The head-first tongue after the 29 in-bounds, non-colliding
extensions of scenario A (each extension prepends `head + d`, exactly
as the extending branch of `updateA` does). -/
def pathA : List Cell :=
  movesA.foldl (fun t d => ((t.headI).1 + d.1, (t.headI).2 + d.2) :: t) [(20, 5)]

/-- The anteater state just before the fifth rightward step of
scenario A: tongue `pathA`, moving right, cooldown about to expire. -/
def scenarioA : AState :=
  { initA 20 with tongue := pathA, extending := true,
                  direction := (1, 0), next_direction := (1, 0), move_timer := 4 }

/-- The 30 perimeter cells of the closed rectangle of columns 15..20
and rows 5..15: the cells actually visited by the scenario A path. -/
def perimA : List Cell :=
  ((List.range 11).map (fun r => ((15 : ℤ), (5 + r : ℤ)))) ++
  ((List.range 11).map (fun r => ((20 : ℤ), (5 + r : ℤ)))) ++
  ((List.range 4).map (fun c => ((16 + c : ℤ), (5 : ℤ)))) ++
  ((List.range 4).map (fun c => ((16 + c : ℤ), (15 : ℤ))))

/-- Spec scenario B input: a perfect 3x3 block of cells. -/
def block9 : List Cell :=
  [(1, 1), (2, 1), (3, 1), (1, 2), (2, 2), (3, 2), (1, 3), (2, 3), (3, 3)]

/-- The 12 corner points actually produced for the 3x3 block with
cell size 20: the outer perimeter with a vertex at every grid corner
(4 block corners plus 8 side corners), walked clockwise from the
top-left. -/
def polyB : List Pt :=
  [(20, 20), (40, 20), (60, 20), (80, 20), (80, 40), (80, 60),
   (80, 80), (60, 80), (40, 80), (20, 80), (20, 60), (20, 40)]

/-- Triangle used to exhibit the orientation dependence introduced by
the `1e-9` epsilon of `point_in_polygon`. -/
def polyC8 : List (ℚ × ℚ) := [(0, 0), (2, 3), (5, 0)]

/-- Query abscissa lying strictly between the two epsilon-perturbed
crossing abscissae of the triangle edge from (0,0) to (2,3) at
`py = 1` (the exact crossing is at 2/3; the perturbed values differ
by about `2e-10` depending on edge orientation). -/
def pxC8 : ℚ := 2 / 3 - 3 / 10000000000

/-- A cell lies inside the configured grid: the negation of the
bounds test `nx < 0 or nx > max_x or ny < 0 or ny > max_y` of
`Anteater.update`, with `max_x = WIDTH // grid_size - 1` and
`max_y = HEIGHT // grid_size - 1`. -/
def inBounds (g : ℤ) (c : Cell) : Prop :=
  0 ≤ c.1 ∧ c.1 ≤ WIDTH / g - 1 ∧ 0 ≤ c.2 ∧ c.2 ≤ HEIGHT / g - 1

instance (g : ℤ) (c : Cell) : Decidable (inBounds g c) := by
  unfold inBounds; infer_instance

/-- What one `Anteater.update` call does when the cooldown has
expired and the candidate head revisits an occupied, in-bounds cell:
the loop state is populated from the head-first prefix ending at the
first occurrence of the revisited cell, the tongue is untouched, and
the machine flips to retracting (with a cooldown larger than 1 the
fall-through retract block only bumps the timer back to 1). -/
theorem updateA_self_hit (s : AState)
    (hext : s.extending = true) (hla : s.loop_active = false)
    (hfire : s.move_timer + 1 ≥ s.move_cooldown) (hcd : 1 < s.move_cooldown)
    (hib : ¬ ((nhOf s).1 < 0 ∨ (nhOf s).1 > WIDTH / s.grid_size - 1 ∨
              (nhOf s).2 < 0 ∨ (nhOf s).2 > HEIGHT / s.grid_size - 1))
    (hmem : nhOf s ∈ s.tongue) :
    updateA s = { s with
      move_timer := 1,
      direction := s.next_direction,
      loop_path := s.tongue.take (s.tongue.indexOf (nhOf s) + 1),
      loop_cells := (s.tongue.take (s.tongue.indexOf (nhOf s) + 1)).toFinset,
      loop_active := true,
      capture_timer := s.capture_delay_frames,
      extending := false,
      retracting := true } := by
  have h1 : ¬ (0 + 1 ≥ s.move_cooldown) := by omega
  simp [updateA, retractPhase, hext, hla, hfire, hib, hmem, h1]

/-- Cells of the tongue are all in bounds, so a revisited cell passes
the bounds test. -/
theorem inBounds_not_oob {s : AState} (h : inBounds s.grid_size (nhOf s)) :
    ¬ ((nhOf s).1 < 0 ∨ (nhOf s).1 > WIDTH / s.grid_size - 1 ∨
       (nhOf s).2 < 0 ∨ (nhOf s).2 > HEIGHT / s.grid_size - 1) := by
  obtain ⟨h1, h2, h3, h4⟩ := h
  push_neg
  exact ⟨h1, h2, h3, h4⟩

/-- Claim C1: on a duplicate-free path whose cells are in bounds,
extending onto a cell already present at position `i` (head-first)
sets the loop state: `loop_active` becomes true, `loop_path` is the
inclusive head-first prefix `cells()[0 .. i]`, `loop_cells` is its
deduplicated set, the tongue itself is not mutated, and `i` is the
occurrence closest to the current head (no earlier position holds the
revisited cell). -/
theorem c1_self_intersection (s : AState) (i : ℕ) (hi : i < s.tongue.length)
    (hext : s.extending = true) (hla : s.loop_active = false)
    (hfire : s.move_timer + 1 ≥ s.move_cooldown) (hcd : 1 < s.move_cooldown)
    (hnd : s.tongue.Nodup)
    (hbounds : ∀ c ∈ s.tongue, inBounds s.grid_size c)
    (hhit : s.tongue.get ⟨i, hi⟩ = nhOf s) :
    (updateA s).loop_active = true ∧
    (updateA s).loop_path = s.tongue.take (i + 1) ∧
    (updateA s).loop_cells = (s.tongue.take (i + 1)).toFinset ∧
    (updateA s).tongue = s.tongue ∧
    (∀ j (hj : j < s.tongue.length), j < i → s.tongue.get ⟨j, hj⟩ ≠ nhOf s) := by
  have hmem : nhOf s ∈ s.tongue := by
    rw [← hhit]; exact List.get_mem _ _ _
  have hib := inBounds_not_oob (hbounds _ hmem)
  have hlt : s.tongue.indexOf (nhOf s) < s.tongue.length :=
    List.indexOf_lt_length.2 hmem
  have hidx : s.tongue.indexOf (nhOf s) = i := by
    have h1 : s.tongue[s.tongue.indexOf (nhOf s)] = nhOf s :=
      List.getElem_indexOf hlt
    have h2 : s.tongue[i] = nhOf s := by
      rw [← hhit]; simp [List.get_eq_getElem]
    exact hnd.getElem_inj_iff.1 (h1.trans h2.symm)
  rw [updateA_self_hit s hext hla hfire hcd hib hmem, hidx]
  refine ⟨rfl, rfl, rfl, rfl, ?_⟩
  intro j hj hji heq
  have h2 : s.tongue[i] = nhOf s := by
    rw [← hhit]; simp [List.get_eq_getElem]
  have h3 : s.tongue[j] = nhOf s := by
    rw [← heq]; simp [List.get_eq_getElem]
  have := hnd.getElem_inj_iff.1 (h3.trans h2.symm)
  omega

/-- Concrete head-first tongue one step short of closing a 2x2 loop,
used to instantiate the self-intersection theorems: the head is at
(6, 5), the buffered direction is left, so the candidate head is the
seed cell (5, 5) at index 3. -/
def sC1 : AState :=
  { initA 20 with tongue := [(6, 5), (6, 6), (5, 6), (5, 5)],
                  extending := true, direction := (0, -1),
                  next_direction := (-1, 0), move_timer := 4 }

/-- Witness for C1: the 2x2 loop state `sC1` satisfies every
hypothesis and the conclusions evaluate as stated. -/
theorem c1_self_intersection_witness :
    (updateA sC1).loop_active = true ∧
    (updateA sC1).loop_path = sC1.tongue.take 4 ∧
    (updateA sC1).loop_cells = (sC1.tongue.take 4).toFinset ∧
    (updateA sC1).tongue = sC1.tongue := by
  obtain ⟨h1, h2, h3, h4, _⟩ :=
    c1_self_intersection sC1 3 (by decide) rfl rfl (by decide) (by decide)
      (by decide) (by decide) (by decide)
  exact ⟨h1, h2, h3, h4⟩

/-- Claim C4: when the candidate head fails the bounds test, the
update returns at once: the tongue and the whole loop state are left
unchanged (in particular no self-intersection outcome is produced,
even if the candidate cell also occurs in the path), and the machine
transitions to retracting. -/
theorem c4_out_of_bounds_rejection (s : AState)
    (hext : s.extending = true) (hla : s.loop_active = false)
    (hfire : s.move_timer + 1 ≥ s.move_cooldown)
    (hoob : (nhOf s).1 < 0 ∨ (nhOf s).1 > WIDTH / s.grid_size - 1 ∨
            (nhOf s).2 < 0 ∨ (nhOf s).2 > HEIGHT / s.grid_size - 1) :
    (updateA s).tongue = s.tongue ∧
    (updateA s).extending = false ∧
    (updateA s).retracting = true ∧
    (updateA s).loop_active = false ∧
    (updateA s).loop_path = s.loop_path ∧
    (updateA s).loop_cells = s.loop_cells := by
  simp [updateA, hext, hla, hfire, hoob]

/-- State whose candidate head (0, -1) is both out of bounds and
already present in the path: the out-of-bounds test fires first and
no loop is formed. -/
def sC4 : AState :=
  { initA 20 with tongue := [(0, 0), (0, -1)], extending := true,
                  next_direction := (0, -1), move_timer := 4 }

/-- Witness for C4: on `sC4` the revisited-but-out-of-bounds
candidate head is rejected without touching the path or loop state,
showing the bounds test precedes the intersection test. -/
theorem c4_out_of_bounds_rejection_witness :
    nhOf sC4 ∈ sC4.tongue ∧
    (updateA sC4).tongue = sC4.tongue ∧
    (updateA sC4).extending = false ∧
    (updateA sC4).retracting = true ∧
    (updateA sC4).loop_active = false ∧
    (updateA sC4).loop_cells = sC4.loop_cells := by
  obtain ⟨h1, h2, h3, h4, _, h6⟩ :=
    c4_out_of_bounds_rejection sC4 rfl rfl (by decide) (by decide)
  exact ⟨by decide, h1, h2, h3, h4, h6⟩

/-- Claim C6: while retracting, a cooldown-expired tick pops the head
cell when more than one cell remains (staying in the retracting
state, directions untouched), and when exactly one cell remains it
leaves the path alone — never emptying it — ends retraction, and
resets both the applied and the buffered direction to the default
(0, 1). -/
theorem c6_retract_step (s : AState)
    (hext : s.extending = false) (hret : s.retracting = true)
    (hfire : s.move_timer + 1 ≥ s.move_cooldown) :
    (1 < s.tongue.length →
       (updateA s).tongue = s.tongue.tail ∧
       (updateA s).tongue.length + 1 = s.tongue.length ∧
       (updateA s).retracting = true ∧
       (updateA s).extending = false ∧
       (updateA s).direction = s.direction ∧
       (updateA s).next_direction = s.next_direction) ∧
    (s.tongue.length = 1 →
       (updateA s).tongue = s.tongue ∧
       (updateA s).tongue ≠ [] ∧
       (updateA s).retracting = false ∧
       (updateA s).extending = false ∧
       (updateA s).direction = (0, 1) ∧
       (updateA s).next_direction = (0, 1)) := by
  have hne : ¬ (s.extending = true ∧ s.loop_active = false) := by
    simp [hext]
  rw [updateA, if_neg hne]
  constructor
  · intro hlen
    simp [retractPhase, hret, hfire, hlen, hext, List.length_tail]
    omega
  · intro hlen
    have hgt : ¬ (1 < s.tongue.length) := by omega
    have hnil : s.tongue ≠ [] := by
      intro h
      rw [h] at hlen
      simp at hlen
    simp [retractPhase, hret, hfire, hgt, hext, hnil]

/-- Retracting state with two cells, one cooldown tick pending. -/
def sC6a : AState :=
  { initA 20 with tongue := [(20, 6), (20, 5)], retracting := true,
                  direction := (0, -1), next_direction := (0, -1), move_timer := 4 }

/-- Retracting state with a single anchored cell left. -/
def sC6b : AState :=
  { initA 20 with tongue := [(20, 5)], retracting := true,
                  direction := (0, -1), next_direction := (0, -1), move_timer := 4 }

/-- Witness for C6: the two-cell state pops its head and keeps
retracting; the one-cell state is left intact, retraction ends, and
both directions reset to (0, 1). -/
theorem c6_retract_step_witness :
    ((updateA sC6a).tongue = sC6a.tongue.tail ∧
     (updateA sC6a).retracting = true) ∧
    ((updateA sC6b).tongue = sC6b.tongue ∧
     (updateA sC6b).tongue ≠ [] ∧
     (updateA sC6b).retracting = false ∧
     (updateA sC6b).direction = (0, 1) ∧
     (updateA sC6b).next_direction = (0, 1)) := by
  constructor
  · obtain ⟨ha, -⟩ := c6_retract_step sC6a rfl rfl (by decide)
    obtain ⟨h1, h2, h3, h4, h5, h6⟩ := ha (by decide)
    exact ⟨h1, h3⟩
  · obtain ⟨-, hb⟩ := c6_retract_step sC6b rfl rfl (by decide)
    obtain ⟨h1, h2, h3, h4, h5, h6⟩ := hb (by decide)
    exact ⟨h1, h2, h3, h5, h6⟩

/-- Claim C10: when the path already holds `max_segments` cells and
the candidate head revisits an occupied in-bounds cell, the
self-intersection branch wins over the max-length branch: the loop
state is populated (a formed loop, with a non-empty `loop_path`), the
tongue is not truncated, and the machine retracts with the loop
active rather than taking the plain max-length exit. -/
theorem c10_collision_precedence (s : AState)
    (hext : s.extending = true) (hla : s.loop_active = false)
    (hfire : s.move_timer + 1 ≥ s.move_cooldown) (hcd : 1 < s.move_cooldown)
    (hbounds : ∀ c ∈ s.tongue, inBounds s.grid_size c)
    (hmem : nhOf s ∈ s.tongue)
    (_hmax : s.max_segments ≤ s.tongue.length) :
    (updateA s).loop_active = true ∧
    (updateA s).loop_path = s.tongue.take (s.tongue.indexOf (nhOf s) + 1) ∧
    (updateA s).loop_path ≠ [] ∧
    (updateA s).loop_cells = (s.tongue.take (s.tongue.indexOf (nhOf s) + 1)).toFinset ∧
    (updateA s).tongue = s.tongue ∧
    (updateA s).extending = false ∧
    (updateA s).retracting = true := by
  have hib := inBounds_not_oob (hbounds _ hmem)
  rw [updateA_self_hit s hext hla hfire hcd hib hmem]
  refine ⟨rfl, rfl, ?_, rfl, rfl, rfl, rfl⟩
  rw [Ne, List.take_eq_nil_iff]
  rintro (h | h)
  · omega
  · rw [h] at hmem
    simp at hmem

/-- The 2x2 loop state with `max_segments` lowered to the current
path length, so the max-length check and the collision check fire on
the same tick. -/
def sC10 : AState :=
  { initA 20 with tongue := [(6, 5), (6, 6), (5, 6), (5, 5)],
                  extending := true, direction := (0, -1),
                  next_direction := (-1, 0), move_timer := 4,
                  max_segments := 4 }

/-- Witness for C10: at maximum length the revisiting step still
forms a loop and leaves the tongue untruncated. -/
theorem c10_collision_precedence_witness :
    (updateA sC10).loop_active = true ∧
    (updateA sC10).loop_path ≠ [] ∧
    (updateA sC10).tongue = sC10.tongue ∧
    (updateA sC10).retracting = true := by
  obtain ⟨h1, h2, h3, h4, h5, h6, h7⟩ :=
    c10_collision_precedence sC10 rfl rfl (by decide) (by decide) (by decide)
      (by decide) (by decide)
  exact ⟨h1, h3, h5, h7⟩

/-- Counterexample to claim C3: in scenario A the fifth rightward
step does revisit the seed cell (20, 5) — found at index 29, the
occurrence closest to the head — but `loop_cells` holds only the 30
cells actually visited by the path (the perimeter of the enclosed
rectangle), not a filled 5x10 rectangle of 50 cells. -/
theorem c3_scenario_a_counterexample :
    (updateA scenarioA).loop_active = true ∧
    scenarioA.tongue.indexOf ((20 : ℤ), (5 : ℤ)) = 29 ∧
    nhOf scenarioA = (20, 5) ∧
    (updateA scenarioA).loop_cells.card = 30 ∧
    ¬ (updateA scenarioA).loop_cells.card = 50 := by
  refine ⟨by decide, by decide, by decide, by decide, by decide⟩

/-- Claim C3 as amended: the fifth rightward step of scenario A
revisits (20, 5) at index 29 (the tail seed cell), the whole 30-cell
tongue becomes `loop_path`, the tongue is untouched, and `loop_cells`
is exactly the 30-cell perimeter of the closed rectangle spanning
columns 15..20 and rows 5..15 — the cells the path walked, not a
filled rectangle. -/
theorem c3_scenario_a_amended :
    (updateA scenarioA).loop_active = true ∧
    (updateA scenarioA).loop_path = scenarioA.tongue ∧
    (updateA scenarioA).tongue = scenarioA.tongue ∧
    (updateA scenarioA).loop_cells = perimA.toFinset ∧
    perimA.toFinset.card = 30 := by
  refine ⟨by decide, by decide, by decide, by decide, by decide⟩

/-- Counterexample to claim C2: tracing the 3x3 block of cells (9
cells, above `min_loop_area = 2`) returns a polygon with 12 points,
not 8: the boundary walk emits one vertex per unit grid corner along
the perimeter and never merges collinear vertices. -/
theorem c2_block_counterexample :
    (get_loop_polygon_pixels 20 2 block9 block9.toFinset).length = 12 ∧
    ¬ (get_loop_polygon_pixels 20 2 block9 block9.toFinset).length = 8 := by
  refine ⟨by decide, by decide⟩

/-- Claim C2 as amended: the 3x3 block traces to the 12-point outer
perimeter polygon `polyB` — the square boundary of the block, walked
clockwise from the top-left corner, with a vertex at each of the 4
block corners and the 8 intermediate cell corners. -/
theorem c2_block_amended :
    get_loop_polygon_pixels 20 2 block9 block9.toFinset = polyB ∧
    polyB.length = 12 := by
  refine ⟨by decide, by decide⟩

/-- In the 3x3 block instance every corner on the boundary has
exactly one outgoing directed edge, so the boundary walk — and hence
`c2_block_amended` — does not depend on the unspecified Python set
iteration order behind the adjacency lists. -/
theorem block9_adjacency_unique :
    ∀ e ∈ boundaryEdges 20 block9.dedup,
      (adjOf (boundaryEdges 20 block9.dedup) e.1).length = 1 := by
  decide

/-- A unit direction is never its own opposite. -/
theorem ne_dirOpp_self {d : Cell} (h : d ∈ unitDirs) : d ≠ dirOpp d := by
  fin_cases h <;> decide

/-- `dirOpp` swaps sides of an equation (it is an involution). -/
theorem dirOpp_eq_iff {a b : Cell} : dirOpp a = b ↔ a = dirOpp b := by
  unfold dirOpp
  constructor <;> intro h <;>
    [rw [← h]; rw [h]] <;> simp [Prod.ext_iff]

/-- A handle_input branch guard: if setting direction `v` is guarded
by the current direction differing from `w = dirOpp v`, the buffered
`v` cannot be the reversal of the current direction. -/
theorem dir_guard (v w d : Cell) (hvw : dirOpp v = w) (hg : d ≠ w) :
    v ≠ dirOpp d := by
  intro hc
  exact hg ((dirOpp_eq_iff.1 hc.symm).trans hvw)

/-- `handle_input` preserves the direction invariant: each branch is
guarded against the exact reverse of the current direction. -/
theorem dirInv_handleInput (k : Keys) {s : AState} (h : DirInv s) :
    DirInv (handleInput k s) := by
  obtain ⟨hd, hn, hne, ht⟩ := h
  unfold handleInput DirInv
  split_ifs with h1 h2 h3 h4 h5 h6 h7 h8
  · exact ⟨hd, (by decide : ((-1 : ℤ), (0 : ℤ)) ∈ unitDirs),
      dir_guard (-1, 0) (1, 0) s.direction (by decide) h2, ht⟩
  · exact ⟨hd, hn, hne, ht⟩
  · exact ⟨hd, (by decide : ((1 : ℤ), (0 : ℤ)) ∈ unitDirs),
      dir_guard (1, 0) (-1, 0) s.direction (by decide) h4, ht⟩
  · exact ⟨hd, hn, hne, ht⟩
  · exact ⟨hd, (by decide : ((0 : ℤ), (-1 : ℤ)) ∈ unitDirs),
      dir_guard (0, -1) (0, 1) s.direction (by decide) h6, ht⟩
  · exact ⟨hd, hn, hne, ht⟩
  · exact ⟨hd, (by decide : ((0 : ℤ), (1 : ℤ)) ∈ unitDirs),
      dir_guard (0, 1) (0, -1) s.direction (by decide) h8, ht⟩
  · exact ⟨hd, hn, hne, ht⟩
  · exact ⟨hd, hn, hne, ht⟩

/-- The retract block preserves the direction invariant. -/
theorem dirInv_retractPhase {s : AState} (h : DirInv s) :
    DirInv (retractPhase s) := by
  obtain ⟨hd, hn, hne, ht⟩ := h
  unfold retractPhase
  split_ifs with h1 h2 h3
  · refine ⟨hd, hn, hne, ?_⟩
    have := List.length_tail s.tongue
    rw [← List.length_pos] at ht ⊢
    simp only [List.length_tail]
    omega
  · exact ⟨(by decide : ((0 : ℤ), (1 : ℤ)) ∈ unitDirs),
      (by decide : ((0 : ℤ), (1 : ℤ)) ∈ unitDirs),
      (by decide : ((0 : ℤ), (1 : ℤ)) ≠ dirOpp ((0 : ℤ), (1 : ℤ))), ht⟩
  · exact ⟨hd, hn, hne, ht⟩
  · exact ⟨hd, hn, hne, ht⟩

/-- `update` preserves the direction invariant. -/
theorem dirInv_updateA {s : AState} (h : DirInv s) : DirInv (updateA s) := by
  obtain ⟨hd, hn, hne, ht⟩ := h
  unfold updateA
  split_ifs with h1 h2 h3 h4 h5
  · exact ⟨hn, hn, ne_dirOpp_self hn, ht⟩
  · exact dirInv_retractPhase ⟨hn, hn, ne_dirOpp_self hn, ht⟩
  · exact dirInv_retractPhase ⟨hn, hn, ne_dirOpp_self hn, List.cons_ne_nil _ _⟩
  · exact dirInv_retractPhase ⟨hn, hn, ne_dirOpp_self hn, ht⟩
  · exact dirInv_retractPhase ⟨hd, hn, hne, ht⟩
  · exact dirInv_retractPhase ⟨hd, hn, hne, ht⟩

/-- The retract block never lengthens the tongue. -/
theorem retractPhase_tongue_le (s : AState) :
    (retractPhase s).tongue.length ≤ s.tongue.length := by
  unfold retractPhase
  split_ifs <;> simp [List.length_tail]

/-- On any tick that actually advances the head (the tongue got
longer), the newly applied direction is not the opposite of the
previously applied one. -/
theorem advance_no_reversal {s : AState} (h : DirInv s)
    (hadv : s.tongue.length < (updateA s).tongue.length) :
    (updateA s).direction ≠ dirOpp s.direction := by
  obtain ⟨hd, hn, hne, ht⟩ := h
  rw [updateA] at hadv ⊢
  split_ifs at hadv ⊢ with h1 h2 h3 h4 h5
  · simp at hadv
  · exact absurd hadv (not_lt.2 (retractPhase_tongue_le _))
  · rw [retractPhase] at hadv ⊢
    split_ifs at hadv ⊢ with hr hf hl
    · simp at hadv
    · exfalso
      simp only [List.length_cons, gt_iff_lt] at hl
      have h9 : s.tongue.length = 0 := by omega
      exact ht (List.length_eq_zero.1 h9)
    · exact hne
    · exact hne
  · exact absurd hadv (not_lt.2 (retractPhase_tongue_le _))
  · exact absurd hadv (not_lt.2 (retractPhase_tongue_le _))
  · exact absurd hadv (not_lt.2 (retractPhase_tongue_le _))

/-- The freshly constructed anteater satisfies the direction
invariant. -/
theorem dirInv_initA (g : ℤ) : DirInv (initA g) := by
  exact ⟨(by decide : ((0 : ℤ), (1 : ℤ)) ∈ unitDirs),
    (by decide : ((0 : ℤ), (1 : ℤ)) ∈ unitDirs),
    (by decide : ((0 : ℤ), (1 : ℤ)) ≠ dirOpp ((0 : ℤ), (1 : ℤ))),
    List.cons_ne_nil _ _⟩

/-- The direction invariant holds after any event sequence. -/
theorem dirInv_runEvents (g : ℤ) (evs : List Event) :
    DirInv (runEvents g evs) := by
  rw [runEvents]
  have main : ∀ (l : List Event) (s : AState), DirInv s →
      DirInv (l.foldl stepEvent s) := by
    intro l
    induction l with
    | nil => intro s hs; exact hs
    | cons e l ih =>
      intro s hs
      refine ih _ ?_
      cases e with
      | key k => exact dirInv_handleInput k hs
      | tick => exact dirInv_updateA hs
      | startExtend => exact ⟨hs.1, hs.2.1, hs.2.2.1, hs.2.2.2⟩
      | stopExtend => exact ⟨hs.1, hs.2.1, hs.2.2.1, hs.2.2.2⟩
  exact main evs _ (dirInv_initA g)

/-- Claim C5: after any sequence of inputs and ticks, (a) if a tick
advances the head, the direction it applies is never the exact
opposite of the previously applied direction, (b) input never changes
the applied direction — turns only take effect on the next advancing
tick — and (c) an input requesting the exact reversal of the current
direction is silently ignored: the buffered next direction is left
unchanged. -/
theorem c5_no_reversal (g : ℤ) (evs : List Event) (k : Keys) :
    ((runEvents g evs).tongue.length <
        (updateA (runEvents g evs)).tongue.length →
      (updateA (runEvents g evs)).direction ≠
        dirOpp (runEvents g evs).direction) ∧
    (handleInput k (runEvents g evs)).direction = (runEvents g evs).direction ∧
    (∀ d, requestedDir k = some d →
      d = dirOpp (runEvents g evs).direction →
      (handleInput k (runEvents g evs)).next_direction =
        (runEvents g evs).next_direction) := by
  have hinv := dirInv_runEvents g evs
  refine ⟨fun hadv => advance_no_reversal hinv hadv, ?_, ?_⟩
  · unfold handleInput
    split_ifs <;> rfl
  · intro d hreq hopp
    unfold requestedDir at hreq
    unfold handleInput
    split_ifs at hreq ⊢ with h1 h2 h3 h4 h5 h6 h7 h8
    · injection hreq with hreq
      subst hreq
      exact absurd hopp (dir_guard (-1, 0) (1, 0) _ (by decide) h2)
    · rfl
    · injection hreq with hreq
      subst hreq
      exact absurd hopp (dir_guard (1, 0) (-1, 0) _ (by decide) h4)
    · rfl
    · injection hreq with hreq
      subst hreq
      exact absurd hopp (dir_guard (0, -1) (0, 1) _ (by decide) h6)
    · rfl
    · injection hreq with hreq
      subst hreq
      exact absurd hopp (dir_guard (0, 1) (0, -1) _ (by decide) h8)
    · rfl

/-- Event sequence for the C5 witness: begin extending, then four
idle ticks so the fifth tick advances the head. -/
def evsC5 : List Event := Event.startExtend :: List.replicate 4 Event.tick

/-- Keys state pressing only the up arrow. -/
def keysUp : Keys := ⟨false, false, true, false⟩

/-- Witness for C5: after `evsC5` the next tick advances the head
and applies a non-reversing direction, and pressing up (the exact
reversal of the current downward direction) leaves the buffered
direction unchanged. -/
theorem c5_no_reversal_witness :
    ((runEvents 20 evsC5).tongue.length <
       (updateA (runEvents 20 evsC5)).tongue.length) ∧
    (updateA (runEvents 20 evsC5)).direction ≠
      dirOpp (runEvents 20 evsC5).direction ∧
    (handleInput keysUp (runEvents 20 evsC5)).next_direction =
      (runEvents 20 evsC5).next_direction := by
  obtain ⟨h1, h2, h3⟩ := c5_no_reversal 20 evsC5 keysUp
  exact ⟨by decide, h1 (by decide), h3 (0, -1) (by decide) (by decide)⟩

/-- Every non-empty list of cells has an entry of minimal row. -/
theorem exists_min_row (l : List Cell) (h : l ≠ []) :
    ∃ m ∈ l, ∀ c ∈ l, m.2 ≤ c.2 := by
  induction l with
  | nil => exact absurd rfl h
  | cons x xs ih =>
    rcases eq_or_ne xs [] with hx | hx
    · subst hx
      exact ⟨x, by simp, by simp⟩
    · obtain ⟨m, hm, hmin⟩ := ih hx
      rcases le_total x.2 m.2 with hle | hle
      · refine ⟨x, by simp, ?_⟩
        intro c hc
        rcases List.mem_cons.1 hc with rfl | hc
        · exact le_refl _
        · exact le_trans hle (hmin c hc)
      · refine ⟨m, by simp [hm], ?_⟩
        intro c hc
        rcases List.mem_cons.1 hc with rfl | hc
        · exact hle
        · exact hmin c hc

/-- A cell whose upward neighbor is outside the set contributes its
top edge to the boundary. -/
theorem top_edge_mem (g : ℤ) (cells : List Cell) (c : Cell)
    (hnb : (c.1, c.2 - 1) ∉ cells) :
    ((c.1 * g, c.2 * g), (c.1 * g + g, c.2 * g)) ∈ edgesOfCell g cells c := by
  simp [edgesOfCell, hnb]

/-- Claim C9: any non-empty cell set reaching the primary tracer
emits at least one boundary edge (a minimal-row cell has its upward
neighbor outside the set), so the zero-edges early return is
unreachable there and the traced polygon is non-empty. -/
theorem c9_nonempty_trace (g : ℤ) (mla : ℕ) (lp : List Cell) (lc : Finset Cell)
    (hne : lc ≠ ∅) (hlp : lp ≠ []) (hlen : mla ≤ lp.length) :
    boundaryEdges g lp.dedup ≠ [] ∧
    get_loop_polygon_pixels g mla lp lc ≠ [] := by
  have hd : lp.dedup ≠ [] := fun h => hlp ((List.dedup_eq_nil lp).1 h)
  obtain ⟨m, hm, hmin⟩ := exists_min_row lp.dedup hd
  have hnb : (m.1, m.2 - 1) ∉ lp.dedup := by
    intro hmem
    have h2 := hmin _ hmem
    simp only at h2
    omega
  have hedge : ((m.1 * g, m.2 * g), (m.1 * g + g, m.2 * g)) ∈
      boundaryEdges g lp.dedup :=
    List.mem_flatMap_of_mem hm (top_edge_mem g _ m hnb)
  have hbe : boundaryEdges g lp.dedup ≠ [] := by
    intro h
    rw [h] at hedge
    exact absurd hedge (List.not_mem_nil _)
  refine ⟨hbe, ?_⟩
  have hguard : lp ≠ [] ∧ mla ≤ lp.length := ⟨hlp, hlen⟩
  have hrw : get_loop_polygon_pixels g mla lp lc =
      (if boundaryEdges g lp.dedup = [] then []
       else
         minCorner ((boundaryEdges g lp.dedup).map (fun e => e.1)) ::
           walkAux (adjOf (boundaryEdges g lp.dedup))
             (minCorner ((boundaryEdges g lp.dedup).map (fun e => e.1)))
             (3 * (boundaryEdges g lp.dedup).length)
             (minCorner ((boundaryEdges g lp.dedup).map (fun e => e.1)))
             none) := by
    rw [get_loop_polygon_pixels, if_neg hne, if_pos hguard]
  rw [hrw, if_neg hbe]
  exact List.cons_ne_nil _ _

/-- The exact `atan2` ordering is transitive (it is the pullback of
the lexicographic order on the pair angle class / negated
cotangent). -/
theorem angleLe_trans (a b c : ℤ × ℤ)
    (h1 : angleLe a b) (h2 : angleLe b c) : angleLe a c := by
  simp only [angleLe, decide_eq_true_eq] at h1 h2 ⊢
  rcases h1 with h | ⟨e, r⟩
  · rcases h2 with h' | ⟨e', r'⟩
    · exact Or.inl (Nat.lt_trans h h')
    · exact Or.inl (by omega)
  · rcases h2 with h' | ⟨e', r'⟩
    · exact Or.inl (by omega)
    · exact Or.inr ⟨e.trans e', r.trans r'⟩

/-- The exact `atan2` ordering is total. -/
theorem angleLe_total (a b : ℤ × ℤ) : angleLe a b || angleLe b a := by
  simp only [angleLe, Bool.or_eq_true, decide_eq_true_eq]
  rcases Nat.lt_trichotomy (angClass a) (angClass b) with h | h | h
  · exact Or.inl (Or.inl h)
  · rcases le_total (angRat a) (angRat b) with h' | h'
    · exact Or.inl (Or.inr ⟨h, h'⟩)
    · exact Or.inr (Or.inr ⟨h.symm, h'⟩)
  · exact Or.inr (Or.inl h)

/-- Claim C7: a non-empty loop cell set smaller than `min_loop_area`
(with the game invariant that `loop_cells` is the set of the
duplicate-free `loop_path`) takes the explicit fallback branch: the
result is the list of cell centers sorted by ascending `atan2` angle
around their centroid — a permutation of the centers, pairwise sorted
by the exact angle order, with one point per cell — and in particular
a single cell under `min_loop_area = 2` yields exactly one point. -/
theorem c7_fallback_sorted (g : ℤ) (mla : ℕ) (lp : List Cell) (lc : Finset Cell)
    (hnd : lp.Nodup) (hlc : lc = lp.toFinset)
    (hne : lc ≠ ∅) (hcard : lc.card < mla) :
    get_loop_polygon_pixels g mla lp lc =
      (fallbackPts g lc).mergeSort (fallbackLe g lc) ∧
    (get_loop_polygon_pixels g mla lp lc).Perm (fallbackPts g lc) ∧
    (get_loop_polygon_pixels g mla lp lc).Pairwise
      (fun p q => fallbackLe g lc p q = true) ∧
    (get_loop_polygon_pixels g mla lp lc).length = lc.card ∧
    (get_loop_polygon_pixels 20 2 [((3 : ℤ), (4 : ℤ))]
        {((3 : ℤ), (4 : ℤ))}).length = 1 := by
  have hlen : lp.length = lc.card := by
    rw [hlc, List.toFinset_card_of_nodup hnd]
  have hguard : ¬ (lp ≠ [] ∧ mla ≤ lp.length) := by
    rintro ⟨-, hle⟩
    omega
  have hpts : fallbackPts g lc ≠ [] := by
    unfold fallbackPts
    rw [Ne, ← List.length_eq_zero, List.length_map, Finset.length_sort]
    intro hc
    exact hne (Finset.card_eq_zero.1 hc)
  have h0 : get_loop_polygon_pixels g mla lp lc = fallbackPoly g lc := by
    rw [get_loop_polygon_pixels, if_neg hne, if_neg hguard]
  have h1 : fallbackPoly g lc = (fallbackPts g lc).mergeSort (fallbackLe g lc) := by
    rw [fallbackPoly, if_neg hpts]
  have hperm : ((fallbackPts g lc).mergeSort (fallbackLe g lc)).Perm
      (fallbackPts g lc) := List.mergeSort_perm _ _
  refine ⟨h0.trans h1, by rw [h0, h1]; exact hperm, ?_, ?_, ?_⟩
  · rw [h0, h1]
    exact List.sorted_mergeSort
      (fun a b c => angleLe_trans (fallbackVec g lc a) (fallbackVec g lc b)
        (fallbackVec g lc c))
      (fun a b => angleLe_total (fallbackVec g lc a) (fallbackVec g lc b)) _
  · rw [h0, h1, hperm.length_eq]
    unfold fallbackPts
    rw [List.length_map, Finset.length_sort]
  · have hs : ({((3 : ℤ), (4 : ℤ))} : Finset Cell).sort cellLe = [(3, 4)] :=
      Finset.sort_singleton _ _
    have hp : fallbackPts 20 {((3 : ℤ), (4 : ℤ))} = [(70, 90)] := by
      unfold fallbackPts
      rw [hs]
      simp [centerOf]
    have hq : ¬ (([((3 : ℤ), (4 : ℤ))] : List Cell) ≠ [] ∧
        2 ≤ ([((3 : ℤ), (4 : ℤ))] : List Cell).length) := by
      rintro ⟨-, hle⟩
      simp at hle
    rw [get_loop_polygon_pixels, if_neg (by decide), if_neg hq,
      fallbackPoly, if_neg (by rw [hp]; exact List.cons_ne_nil _ _), hp,
      List.mergeSort_singleton]
    rfl

/-- Witness for C7: a single cell with `min_loop_area = 2` goes
through the fallback and produces its one center point; the
conclusions are instantiated at that input. -/
theorem c7_fallback_sorted_witness :
    get_loop_polygon_pixels 20 2 [((3 : ℤ), (4 : ℤ))] {((3 : ℤ), (4 : ℤ))} =
      (fallbackPts 20 {((3 : ℤ), (4 : ℤ))}).mergeSort
        (fallbackLe 20 {((3 : ℤ), (4 : ℤ))}) ∧
    (get_loop_polygon_pixels 20 2 [((3 : ℤ), (4 : ℤ))]
        {((3 : ℤ), (4 : ℤ))}).length = ({((3 : ℤ), (4 : ℤ))} : Finset Cell).card := by
  obtain ⟨h1, h2, h3, h4, h5⟩ :=
    c7_fallback_sorted 20 2 [((3 : ℤ), (4 : ℤ))] {((3 : ℤ), (4 : ℤ))}
      (by decide) (by decide) (by decide) (by decide)
  exact ⟨h1, h4⟩

/-- Witness for C9: a two-cell horizontal domino meeting
`min_loop_area = 2` yields boundary edges and a non-empty polygon. -/
theorem c9_nonempty_trace_witness :
    boundaryEdges 20 ([((0 : ℤ), (0 : ℤ)), (1, 0)].dedup) ≠ [] ∧
    get_loop_polygon_pixels 20 2 [((0 : ℤ), (0 : ℤ)), (1, 0)]
      {((0 : ℤ), (0 : ℤ)), (1, 0)} ≠ [] :=
  c9_nonempty_trace 20 2 [((0 : ℤ), (0 : ℤ)), (1, 0)]
    {((0 : ℤ), (0 : ℤ)), (1, 0)} (by decide) (by decide) (by decide)

/-- Counterexample to claim C8: for the triangle `polyC8` and the
query point `(pxC8, 1)`, the ray-casting test answers `False` on the
polygon and `True` on its reversal.  The `1e-9` epsilon added to the
denominator perturbs the crossing abscissa of the edge (0,0)-(2,3)
differently for the two edge orientations, and `pxC8` lies strictly
between the two perturbed values. -/
theorem c8_reversal_counterexample :
    point_in_polygon pxC8 1 polyC8 = false ∧
    point_in_polygon pxC8 1 polyC8.reverse = true := by
  constructor <;>
    norm_num [point_in_polygon, crossesB, epsQ, polyC8, pxC8, List.range_succ]

/-- A fold that toggles a flag once per index satisfying `p` computes
the parity of the number of such indices. -/
theorem foldl_toggle (p : ℕ → Bool) (l : List ℕ) :
    ∀ b : Bool,
      l.foldl (fun inside i => if p i then !inside else inside) b =
        xor b (decide (l.countP p % 2 = 1)) := by
  induction l with
  | nil => intro b; simp
  | cons x l ih =>
    intro b
    rw [List.foldl_cons, List.countP_cons, ih]
    cases hx : p x
    · simp [hx]
    · simp only [hx, if_true]
      have hmod : decide ((l.countP p + 1) % 2 = 1) =
          !decide (l.countP p % 2 = 1) := by
        rcases Nat.mod_two_eq_zero_or_one (l.countP p) with h | h <;>
          simp [Nat.add_mod, h]
      rw [hmod]
      cases b <;> cases hdec : decide (l.countP p % 2 = 1) <;> simp

/-- `point_in_polygon` as a parity: `False` below 3 points, else the
parity of the number of crossing edges. -/
theorem point_in_polygon_parity (px py : ℚ) (poly : List (ℚ × ℚ)) :
    point_in_polygon px py poly =
      (if poly.length < 3 then false
       else decide ((List.range poly.length).countP
         (fun i => crossesB px py (poly.getD i (0, 0))
           (poly.getD ((i + 1) % poly.length) (0, 0))) % 2 = 1)) := by
  rw [point_in_polygon]
  split_ifs with hl
  · rfl
  · rw [foldl_toggle (fun i => crossesB px py (poly.getD i (0, 0))
      (poly.getD ((i + 1) % poly.length) (0, 0))) (List.range poly.length) false]
    simp

/-- The index of the forward edge matching reversed edge `i`. -/
def revIdx (n i : ℕ) : ℕ := if i + 1 = n then n - 1 else n - 2 - i

/-- Successor modulo `n` without the modulo. -/
theorem succMod {n i : ℕ} (hi : i < n) :
    (i + 1) % n = if i + 1 = n then 0 else i + 1 := by
  rcases eq_or_ne (i + 1) n with h | h
  · simp [h, Nat.mod_self]
  · rw [if_neg h, Nat.mod_eq_of_lt (by omega)]

/-- `revIdx n` stays below `n`. -/
theorem revIdx_lt {n i : ℕ} (hn : 0 < n) (_hi : i < n) : revIdx n i < n := by
  unfold revIdx
  split_ifs <;> omega

/-- `revIdx n` is an involution on `[0, n)`. -/
theorem revIdx_invol {n i : ℕ} (hi : i < n) : revIdx n (revIdx n i) = i := by
  unfold revIdx
  split_ifs <;> omega

/-- The second corner index of a reversed edge, without modulo. -/
theorem sub_one_succMod {n i : ℕ} (hi : i < n) :
    n - 1 - ((i + 1) % n) = revIdx n i := by
  rw [succMod hi]
  unfold revIdx
  split_ifs <;> omega

/-- The successor of `revIdx n i` modulo `n`. -/
theorem revIdx_succMod {n i : ℕ} (hi : i < n) :
    (revIdx n i + 1) % n = n - 1 - i := by
  unfold revIdx
  split_ifs with h
  · have h1 : n - 1 + 1 = n := by omega
    rw [h1, Nat.mod_self]
    omega
  · rw [Nat.mod_eq_of_lt (by omega)]
    omega

/-- `getD` on a reversed list, for indices in range. -/
theorem getD_reverse (l : List (ℚ × ℚ)) {i : ℕ} (hi : i < l.length)
    (d : ℚ × ℚ) :
    l.reverse.getD i d = l.getD (l.length - 1 - i) d := by
  have h1 : i < l.reverse.length := by simpa using hi
  have h2 : l.length - 1 - i < l.length := by omega
  rw [List.getD_eq_getElem?_getD, List.getD_eq_getElem?_getD,
    List.getElem?_eq_getElem h1, List.getElem?_eq_getElem h2]
  simp [List.getElem_reverse]

/-- Claim C8 as amended: the ray-casting test is invariant under
reversing the polygon's point order whenever, for every edge, the
epsilon-perturbed crossing comparison agrees between the two edge
orientations — the `1e-9` stabilizer makes the two orientations of an
edge compare the query abscissa against slightly different crossing
values, so unconditional invariance fails (`c8_reversal_counterexample`),
but outside those epsilon-wide bands each edge toggles identically in
both traversals, and the crossing parities coincide. -/
theorem c8_reversal_amended (px py : ℚ) (poly : List (ℚ × ℚ))
    (h : ∀ i, i < poly.length →
      crossesB px py (poly.getD i (0, 0))
        (poly.getD ((i + 1) % poly.length) (0, 0)) =
      crossesB px py (poly.getD ((i + 1) % poly.length) (0, 0))
        (poly.getD i (0, 0))) :
    point_in_polygon px py poly.reverse = point_in_polygon px py poly := by
  rw [point_in_polygon_parity, point_in_polygon_parity]
  simp only [List.length_reverse]
  split_ifs with h3
  · rfl
  · have hn : 0 < poly.length := by omega
    have hcross : ∀ i, i < poly.length →
        crossesB px py (poly.reverse.getD i (0, 0))
          (poly.reverse.getD ((i + 1) % poly.length) (0, 0)) =
        crossesB px py (poly.getD (revIdx poly.length i) (0, 0))
          (poly.getD ((revIdx poly.length i + 1) % poly.length) (0, 0)) := by
      intro i hi
      have hmozzle : (i + 1) % poly.length < poly.length :=
        Nat.mod_lt _ hn
      rw [getD_reverse poly hi, getD_reverse poly hmozzle,
        sub_one_succMod hi, revIdx_succMod hi]
      have hj := h (revIdx poly.length i) (revIdx_lt hn hi)
      rw [revIdx_succMod hi] at hj
      exact hj.symm
    have hperm : ((List.range poly.length).map (revIdx poly.length)).Perm
        (List.range poly.length) := by
      rw [List.perm_ext_iff_of_nodup
        ((List.nodup_range poly.length).map_on (fun x hx y hy hxy => by
          have h9 := congrArg (revIdx poly.length) hxy
          rwa [revIdx_invol (List.mem_range.1 hx),
            revIdx_invol (List.mem_range.1 hy)] at h9))
        (List.nodup_range poly.length)]
      intro a
      simp only [List.mem_map, List.mem_range]
      constructor
      · rintro ⟨i, hi, rfl⟩
        exact revIdx_lt hn hi
      · intro ha
        exact ⟨revIdx poly.length a, revIdx_lt hn ha, revIdx_invol ha⟩
    have hstep1 : (List.range poly.length).countP
        (fun i => crossesB px py (poly.reverse.getD i (0, 0))
          (poly.reverse.getD ((i + 1) % poly.length) (0, 0))) =
        (List.range poly.length).countP
          (fun i => crossesB px py (poly.getD (revIdx poly.length i) (0, 0))
            (poly.getD ((revIdx poly.length i + 1) % poly.length) (0, 0))) :=
      List.countP_congr (fun i hi => by
        rw [hcross i (List.mem_range.1 hi)])
    have hstep2 : ((List.range poly.length).map (revIdx poly.length)).countP
        (fun i => crossesB px py (poly.getD i (0, 0))
          (poly.getD ((i + 1) % poly.length) (0, 0))) =
        (List.range poly.length).countP
          (fun i => crossesB px py (poly.getD (revIdx poly.length i) (0, 0))
            (poly.getD ((revIdx poly.length i + 1) % poly.length) (0, 0))) := by
      rw [List.countP_map]
      rfl
    have hstep3 : ((List.range poly.length).map (revIdx poly.length)).countP
        (fun i => crossesB px py (poly.getD i (0, 0))
          (poly.getD ((i + 1) % poly.length) (0, 0))) =
        (List.range poly.length).countP
          (fun i => crossesB px py (poly.getD i (0, 0))
            (poly.getD ((i + 1) % poly.length) (0, 0))) :=
      hperm.countP_eq _
    rw [hstep1, ← hstep2, hstep3]

/-- Axis-aligned unit square and interior point used to instantiate
the amended C8 statement. -/
def polyC8W : List (ℚ × ℚ) := [(0, 0), (4, 0), (4, 4), (0, 4)]

/-- Witness for the amended C8: on the square `polyC8W` every edge
compares identically in both orientations for the query point
`(2, 5)` (the horizontal ray at `py = 5` misses every edge), so
reversal leaves the answer unchanged. -/
theorem c8_reversal_amended_witness :
    point_in_polygon 2 5 polyC8W.reverse = point_in_polygon 2 5 polyC8W := by
  refine c8_reversal_amended 2 5 polyC8W ?_
  intro i hi
  simp only [polyC8W, List.length_cons, List.length_nil] at hi
  interval_cases i <;>
    norm_num [crossesB, epsQ, polyC8W]

end AnteaterGame
